import Mathlib

/- Verification of the CPAP measurement pipeline (cpap.py).

   The pipeline converts raw ADC pressure readings into a signed flow series,
   detects breath events by peak detection (scipy.signal.find_peaks semantics)
   followed by a return-to-baseline confirmation, and aggregates the events
   into summary metrics (breath rate, apnea count, leakage).

   Numbers in the detector and analyzer chapters are modelled as rationals,
   so every comparison in the source is exact and every definition is
   executable.  The venturi flow model uses real square roots and pi and is
   modelled over the reals.  Python exceptions (math domain error, IndexError,
   ZeroDivisionError) are modelled by Option: a faulting call returns none. -/

unseal Rat.add Rat.mul Rat.sub Rat.inv Rat.ofScientific

namespace Cpap

/-- One step of convert_ADC_to_pressure: cm-H2O = (25.4 / (14745 - 1638)) *
(ADC - 1638), then pascals = cm-H2O * 98.0665.  The literals 25.4 and 98.0665
are written as the exact fractions 254/10 and 980665/10000. -/
def adc_to_Pa {α : Type} [Field α] (v : α) : α :=
  ((254 / 10) / (14745 - 1638)) * (v - 1638) * (980665 / 10000)

/-- Embedding of convert_ADC_to_pressure: element-wise ADC-to-pascal
conversion of a list of values. -/
def convert_ADC_to_pressure {α : Type} [Field α] (vals : List α) : List α :=
  vals.map adc_to_Pa

/-- Embedding of the inner while loop of scipy's _local_maxima_1d (the peak
finder used by get_breaths): starting at j, advance while the next sample
still equals the plateau value v and the position stays left of the last
index.  The fuel argument only bounds the recursion; localMaximaAux passes
x.length, which is always enough for the loop to reach its exit condition. -/
def plateauEndAux (x : List ℚ) (v : ℚ) : ℕ → ℕ → ℕ
  | 0, j => j
  | fuel + 1, j =>
    if j + 1 < x.length ∧ x.getD j 0 = v then plateauEndAux x v fuel (j + 1) else j

/-- Embedding of the outer while loop of scipy's _local_maxima_1d.  At index i
(starting from 1, stopping before the last index): if the previous sample is
strictly smaller, find the end ia of the run of samples equal to x[i]; if the
sample after the run is strictly smaller, record the midpoint of the run and
resume after it, otherwise advance by one. -/
def localMaximaAux (x : List ℚ) : ℕ → ℕ → List ℕ
  | 0, _ => []
  | fuel + 1, i =>
    if i + 1 < x.length then
      if x.getD (i - 1) 0 < x.getD i 0 then
        let ia := plateauEndAux x (x.getD i 0) x.length (i + 1)
        if x.getD ia 0 < x.getD i 0 then
          (i + ia - 1) / 2 :: localMaximaAux x fuel (ia + 1)
        else
          localMaximaAux x fuel (i + 1)
      else
        localMaximaAux x fuel (i + 1)
    else []

/-- All local maxima of x in scipy's sense, scanning from index 1. -/
def localMaxima (x : List ℚ) : List ℕ :=
  localMaximaAux x x.length 1

/-- Embedding of scipy.signal.find_peaks with the height argument: local
maxima whose sample value is at least the required height. -/
def find_peaks (x : List ℚ) (height : ℚ) : List ℕ :=
  (localMaxima x).filter fun p => decide (height ≤ x.getD p 0)

/-- Embedding of the confirmation scans in get_breaths: does any sample with
index in [lo, hi) have non-positive flow? -/
def zeroReturn (flow : List ℚ) (lo hi : ℕ) : Bool :=
  (List.range' lo (hi - lo)).any fun j => decide (flow.getD j 0 ≤ 0)

/-- Embedding of get_breaths: find peaks with height 0.1; for each consecutive
pair of peaks keep the first if the flow returns to zero or below before the
next peak; keep the last peak if the flow returns to zero or below before the
end of the series. -/
def get_breaths (flow : List ℚ) : List ℕ :=
  let peak_indices := find_peaks flow (1 / 10)
  if peak_indices.isEmpty then []
  else
    ((peak_indices.zip peak_indices.tail).filterMap fun pq =>
        if zeroReturn flow pq.1 pq.2 then some pq.1 else none)
      ++ match peak_indices.getLast? with
         | some p => if zeroReturn flow p flow.length then [p] else []
         | none => []

/-- Recursive restatement of the body of get_breaths, used for induction:
processing the peak list front to back, a peak followed by another peak is
kept when the flow dips to zero or below before the next peak, and the final
peak is kept when the flow dips to zero or below before the end. -/
def breaths_from (flow : List ℚ) : List ℕ → List ℕ
  | [] => []
  | [p] => if zeroReturn flow p flow.length then [p] else []
  | p :: q :: rest =>
    (if zeroReturn flow p q then [p] else []) ++ breaths_from flow (q :: rest)

/-- Embedding of count_apneas: count consecutive breath-time pairs whose gap
strictly exceeds 10 seconds. -/
def count_apneas (breath_times : List ℚ) : ℕ :=
  (List.range (breath_times.length - 1)).foldl
    (fun apnea_count i =>
      if 10 < breath_times.getD (i + 1) 0 - breath_times.getD i 0 then
        apnea_count + 1
      else apnea_count) 0

/-- Embedding of calc_leakage: sum of (flow[i+1] - flow[i]) * (time[i+1] -
time[i]) over consecutive sample pairs.  The negative-leakage warning in the
source only logs; the value is returned unmodified. -/
def calc_leakage (time flow : List ℚ) : ℚ :=
  (List.range (time.length - 1)).foldl
    (fun leakage i =>
      leakage + (flow.getD (i + 1) 0 - flow.getD i 0) *
        (time.getD (i + 1) 0 - time.getD i 0)) 0

/-- The metrics dictionary assembled by analyze_flow. -/
structure Metrics where
  duration : ℚ
  breaths : ℕ
  breath_rate_bpm : ℚ
  breath_times : List ℚ
  apnea_count : ℕ
  leakage : ℚ
deriving DecidableEq

/-- Embedding of analyze_flow.  Python faults are modelled by none: an empty
time list (IndexError on time[-1] or time[0]), a breath index outside the time
list (IndexError on time[i]), and a zero duration (ZeroDivisionError in the
breath-rate computation). -/
def analyze_flow (time flow : List ℚ) : Option Metrics :=
  Option.bind time.getLast? fun tlast =>
  Option.bind time.head? fun tfirst =>
  let duration := tlast - tfirst
  let breath_indices := get_breaths flow
  let breaths := breath_indices.length
  Option.bind (breath_indices.mapM fun i => time[i]?) fun breath_times =>
  let apnea_count := count_apneas breath_times
  if duration = 0 then none
  else
    some { duration := duration
           breaths := breaths
           breath_rate_bpm := ((breaths : ℚ) / duration) * 60
           breath_times := breath_times
           apnea_count := apnea_count
           leakage := calc_leakage time flow }

/-- Global constant ro of cpap.py: air density 1.199 kg per cubic meter. -/
noncomputable def ro : ℝ := 1199 / 1000

/-- Global constant d1 of cpap.py: venturi inlet diameter 0.015 m. -/
noncomputable def d1 : ℝ := 15 / 1000

/-- Global constant d2 of cpap.py: venturi throat diameter 0.012 m. -/
noncomputable def d2 : ℝ := 12 / 1000

/-- Cross-sectional area A1 computed in calc_flow. -/
noncomputable def A1 : ℝ := Real.pi * ((d1 / 2) ^ 2)

/-- Cross-sectional area A2 computed in calc_flow. -/
noncomputable def A2 : ℝ := Real.pi * ((d2 / 2) ^ 2)

/-- Python's math.sqrt: a negative argument raises a ValueError (math domain
error), modelled as none. -/
noncomputable def sqrtChecked (x : ℝ) : Option ℝ :=
  if x < 0 then none else some (Real.sqrt x)

/-- Embedding of calc_flow: Q = 1000 * A1 * sqrt(numer / denom) with
numer = 2 * (p1 - p2) and denom = ro * ((A1 / A2) ^ 2 - 1); the call faults
exactly when the square-root argument is negative. -/
noncomputable def calc_flow (p1 p2 : ℝ) : Option ℝ :=
  Option.map (fun s => 1000 * A1 * s)
    (sqrtChecked ((2 * (p1 - p2)) / (ro * ((A1 / A2) ^ 2 - 1))))

/-- One parsed sensor row consumed by get_flow_vs_time: timestamp and the
three ADC codes (venturi reference, inspiratory branch, expiratory branch). -/
structure SensorRow where
  t : ℝ
  adc_ref : ℝ
  adc_ins : ℝ
  adc_exp : ℝ

/-- Embedding of get_flow_vs_time: per row, convert the three ADC values to
pressures, compare the inspiratory and expiratory pressures, and record the
flow positive (inspiratory wins, also on ties) or negated (expiratory wins).
A faulting calc_flow call aborts the whole computation (none), matching the
uncaught Python exception. -/
noncomputable def get_flow_vs_time : List SensorRow → Option (List ℝ × List ℝ)
  | [] => some ([], [])
  | row :: rest =>
    match convert_ADC_to_pressure [row.adc_ref, row.adc_ins, row.adc_exp] with
    | [p2, p1_ins, p1_exp] =>
      Option.bind
        (if p1_ins ≥ p1_exp then calc_flow p1_ins p2
         else Option.map (fun q => -1 * q) (calc_flow p1_exp p2)) fun f =>
      Option.bind (get_flow_vs_time rest) fun tf =>
      some (row.t :: tf.1, f :: tf.2)
    | _ => none

example : find_peaks [5, 10, 15, 100, 37, 63, 75] (1 / 10) = [3] := by decide
example : get_breaths [5, 10, 15, 100, 37, 63, 75] = [] := by decide
example : get_breaths [5, 10, -10, 7] = [1] := by decide
example : get_breaths [5, 10, 3, 20, -10, 7] = [3] := by decide
example : get_breaths [0, 1, 0] = [1] := by decide
example : get_breaths [5, 10, -10, -8, -20, 7] = [1] := by decide
example : get_breaths [5, 10, 0, -5, -10] = [1] := by decide
example : get_breaths [0, 5, 0, -5, 10] = [1] := by decide
example : get_breaths [10, 5, 0, -5, -10] = [] := by decide
example : get_breaths [10, 5, -5, 1, -10] = [3] := by decide
example : get_breaths [0, 0, 0, 0, 0] = [] := by decide
example : find_peaks [0, 1, 1, 0] (1 / 10) = [1] := by decide
example : find_peaks [0, 1, 1, 1, 0] (1 / 10) = [2] := by decide
example : count_apneas [0, 11, 0, 0] = 1 := by decide
example : count_apneas [0, 11, 211/10, 311/10] = 2 := by decide
example : count_apneas [0, 10, 20, 30] = 0 := by decide
example : calc_leakage [0, 1, 2, 3] [1/10, 2/10, 3/10, 4/10] = 3/10 := by decide
example : calc_leakage [0, 1, 2, 3] [1/10, -2/10, 3/10, -4/10] = -5/10 := by decide
example : analyze_flow [0, 1, 2, 3, 4] [0, 1, 0, -1, 0] =
    some ⟨4, 1, 15, [1], 0, 0⟩ := by decide
example : analyze_flow [0, 1, 2, 3, 4, 5, 6, 7, 8, 9]
    [10, 15, 20, 15, 10, 5, 0, 5, 10, 15] =
    some ⟨9, 1, 20/3, [2], 0, 5⟩ := by decide
example : analyze_flow [0, 1, 2, 3, 4, 5, 6, 7, 8, 9, 10]
    [0, 0, 0, 0, 0, 0, 0, 0, 0, 0, 0] = some ⟨10, 0, 0, [], 0, 0⟩ := by decide
example : analyze_flow [3, 3] [0, 0] = none := by decide

/-- A plateau peak in the sense of scipy's _local_maxima_1d: a maximal run of
equal samples x[l..r], strictly above its nearest neighbours on both sides,
with both neighbours in range.  A single-sample strict local maximum is the
case l = r. -/
def IsPlateauPeak (x : List ℚ) (l r : ℕ) : Prop :=
  0 < l ∧ l ≤ r ∧ r + 1 < x.length ∧
  (∀ j, l ≤ j → j ≤ r → x.getD j 0 = x.getD l 0) ∧
  x.getD (l - 1) 0 < x.getD l 0 ∧
  x.getD (r + 1) 0 < x.getD l 0

/-- The plateau scan never moves left. -/
lemma plateauEndAux_le (x : List ℚ) (v : ℚ) :
    ∀ (fuel j : ℕ), j ≤ plateauEndAux x v fuel j
  | 0, j => le_refl j
  | fuel + 1, j => by
    simp only [plateauEndAux]
    split
    · exact le_trans (Nat.le_succ j) (plateauEndAux_le x v fuel (j + 1))
    · exact le_refl j

/-- The plateau scan stays inside the list. -/
lemma plateauEndAux_lt_length (x : List ℚ) (v : ℚ) :
    ∀ (fuel j : ℕ), j < x.length → plateauEndAux x v fuel j < x.length
  | 0, _, h => h
  | fuel + 1, j, h => by
    simp only [plateauEndAux]
    split
    · next hc => exact plateauEndAux_lt_length x v fuel (j + 1) hc.1
    · exact h

/-- Every sample the plateau scan passes over equals the plateau value. -/
lemma plateauEndAux_const (x : List ℚ) (v : ℚ) :
    ∀ (fuel j k : ℕ), j ≤ k → k < plateauEndAux x v fuel j → x.getD k 0 = v
  | 0, j, k, hjk, hk => by simp only [plateauEndAux] at hk; omega
  | fuel + 1, j, k, hjk, hk => by
    simp only [plateauEndAux] at hk
    split at hk
    · next hc =>
      rcases Nat.eq_or_lt_of_le hjk with rfl | hlt
      · exact hc.2
      · exact plateauEndAux_const x v fuel (j + 1) k hlt hk
    · omega

/-- With enough fuel, the plateau scan stops only at its loop exit: either at
the last index or at a sample different from the plateau value. -/
lemma plateauEndAux_stop (x : List ℚ) (v : ℚ) :
    ∀ (fuel j : ℕ), x.length ≤ fuel + j →
      ¬(plateauEndAux x v fuel j + 1 < x.length ∧
        x.getD (plateauEndAux x v fuel j) 0 = v)
  | 0, j, hf => fun hcon => absurd hcon.1 (by simp only [plateauEndAux]; omega)
  | fuel + 1, j, hf => by
    simp only [plateauEndAux]
    split
    · exact plateauEndAux_stop x v fuel (j + 1) (by omega)
    · next hc => exact hc

/-- The plateau scan's result is determined: starting inside a run of samples
equal to v that ends at index e (because e is the last index or x[e] differs
from v), the scan returns e. -/
lemma plateauEndAux_eq (x : List ℚ) (v : ℚ) (e : ℕ) :
    ∀ (fuel j : ℕ), j ≤ e → e < x.length →
      (∀ k, j ≤ k → k < e → x.getD k 0 = v) →
      ¬(e + 1 < x.length ∧ x.getD e 0 = v) →
      x.length ≤ fuel + j → plateauEndAux x v fuel j = e
  | 0, j, hje, helen, _, _, hf => by simp only [plateauEndAux]; omega
  | fuel + 1, j, hje, helen, hconst, hstop, hf => by
    simp only [plateauEndAux]
    rcases Nat.eq_or_lt_of_le hje with rfl | hlt
    · rw [if_neg hstop]
    · rw [if_pos ⟨by omega, hconst j le_rfl hlt⟩]
      exact plateauEndAux_eq x v e fuel (j + 1) hlt helen
        (fun k hk1 hk2 => hconst k (by omega) hk2) hstop (by omega)

/-- Indices produced by the outer scan are at least the scan position. -/
lemma localMaximaAux_ge (x : List ℚ) :
    ∀ (fuel i m : ℕ), m ∈ localMaximaAux x fuel i → i ≤ m
  | 0, _, m, h => absurd h (List.not_mem_nil m)
  | fuel + 1, i, m, h => by
    simp only [localMaximaAux] at h
    split at h
    · split at h
      · split at h
        · rcases List.mem_cons.mp h with rfl | hmem
          · have hia := plateauEndAux_le x (x.getD i 0) x.length (i + 1)
            omega
          · have h1 := localMaximaAux_ge x fuel _ m hmem
            have h2 := plateauEndAux_le x (x.getD i 0) x.length (i + 1)
            omega
        · exact le_trans (Nat.le_succ i) (localMaximaAux_ge x fuel (i + 1) m h)
      · exact le_trans (Nat.le_succ i) (localMaximaAux_ge x fuel (i + 1) m h)
    · exact absurd h (List.not_mem_nil m)

/-- The outer scan produces a strictly increasing index list. -/
lemma localMaximaAux_pairwise (x : List ℚ) :
    ∀ (fuel i : ℕ), (localMaximaAux x fuel i).Pairwise (· < ·)
  | 0, _ => List.Pairwise.nil
  | fuel + 1, i => by
    simp only [localMaximaAux]
    split
    · split
      · split
        · refine List.pairwise_cons.mpr ⟨fun m hm => ?_, localMaximaAux_pairwise x fuel _⟩
          have h1 := localMaximaAux_ge x fuel _ m hm
          have h2 := plateauEndAux_le x (x.getD i 0) x.length (i + 1)
          omega
        · exact localMaximaAux_pairwise x fuel (i + 1)
      · exact localMaximaAux_pairwise x fuel (i + 1)
    · exact List.Pairwise.nil

/-- Characterization of the outer scan: with enough fuel, an index m is
produced from position i exactly when m is the midpoint of a plateau peak
whose left edge is at or right of i. -/
lemma localMaximaAux_mem (x : List ℚ) :
    ∀ (fuel i m : ℕ), 0 < i → x.length ≤ fuel + i →
      (m ∈ localMaximaAux x fuel i ↔
        ∃ l r, i ≤ l ∧ IsPlateauPeak x l r ∧ m = (l + r) / 2)
  | 0, i, m, hi, hf => by
    simp only [localMaximaAux, List.not_mem_nil, false_iff]
    rintro ⟨l, r, hil, ⟨hl0, hlr, hrlen, _, _, _⟩, _⟩
    omega
  | fuel + 1, i, m, hi, hf => by
    simp only [localMaximaAux]
    by_cases hilen : i + 1 < x.length
    · rw [if_pos hilen]
      by_cases hrise : x.getD (i - 1) 0 < x.getD i 0
      · rw [if_pos hrise]
        set ia := plateauEndAux x (x.getD i 0) x.length (i + 1) with hia_def
        have hia1 : i + 1 ≤ ia := by
          rw [hia_def]; exact plateauEndAux_le x _ x.length (i + 1)
        have hia2 : ia < x.length := by
          rw [hia_def]; exact plateauEndAux_lt_length x _ x.length (i + 1) hilen
        have hconst : ∀ k, i ≤ k → k < ia → x.getD k 0 = x.getD i 0 := by
          intro k hk1 hk2
          rcases Nat.eq_or_lt_of_le hk1 with rfl | hlt
          · rfl
          · rw [hia_def] at hk2
            exact plateauEndAux_const x _ x.length (i + 1) k hlt hk2
        have hstop : ¬(ia + 1 < x.length ∧ x.getD ia 0 = x.getD i 0) := by
          rw [hia_def]; exact plateauEndAux_stop x _ x.length (i + 1) (by omega)
        by_cases hfall : x.getD ia 0 < x.getD i 0
        · rw [if_pos hfall]
          constructor
          · intro hm
            rcases List.mem_cons.mp hm with rfl | hmem
            · refine ⟨i, ia - 1, le_refl i, ⟨hi, by omega, by omega, ?_, hrise, ?_⟩, by omega⟩
              · intro j hj1 hj2
                exact hconst j hj1 (by omega)
              · have he : ia - 1 + 1 = ia := by omega
                rw [he]
                exact hfall
            · rcases (localMaximaAux_mem x fuel (ia + 1) m (by omega) (by omega)).mp hmem
                with ⟨l, r, hl, hpk, hm2⟩
              exact ⟨l, r, by omega, hpk, hm2⟩
          · rintro ⟨l, r, hil, hpk, hm2⟩
            obtain ⟨hl0, hlr, hrlen, hpconst, hprise, hpfall⟩ := hpk
            rcases Nat.eq_or_lt_of_le hil with rfl | hlgt
            · have hr_eq : ia = r + 1 := by
                rw [hia_def]
                refine plateauEndAux_eq x (x.getD i 0) (r + 1) x.length (i + 1)
                  (by omega) hrlen ?_ ?_ (by omega)
                · intro k hk1 hk2
                  exact hpconst k (by omega) (by omega)
                · rintro ⟨h1, h2⟩
                  exact absurd h2 (ne_of_lt hpfall)
              exact List.mem_cons.mpr (Or.inl (by omega))
            · have hll : ia + 1 ≤ l := by
                by_contra hcon
                push_neg at hcon
                rcases Nat.lt_or_ge l ia with hlia | hlia
                · have h1 : x.getD (l - 1) 0 = x.getD i 0 := hconst (l - 1) (by omega) (by omega)
                  have h2 : x.getD l 0 = x.getD i 0 := hconst l (by omega) hlia
                  rw [h1, h2] at hprise
                  exact lt_irrefl _ hprise
                · have hl_eq : l = ia := by omega
                  have h1 : x.getD (l - 1) 0 = x.getD i 0 := hconst (l - 1) (by omega) (by omega)
                  rw [h1, hl_eq] at hprise
                  exact lt_irrefl _ (lt_trans hprise hfall)
              rcases (localMaximaAux_mem x fuel (ia + 1) m (by omega) (by omega)).mpr
                  ⟨l, r, hll, ⟨hl0, hlr, hrlen, hpconst, hprise, hpfall⟩, hm2⟩ with hmem
              exact List.mem_cons.mpr (Or.inr hmem)
        · rw [if_neg hfall]
          rw [localMaximaAux_mem x fuel (i + 1) m (by omega) (by omega)]
          constructor
          · rintro ⟨l, r, hl, hpk, hm2⟩
            exact ⟨l, r, by omega, hpk, hm2⟩
          · rintro ⟨l, r, hil, hpk, hm2⟩
            obtain ⟨hl0, hlr, hrlen, hpconst, hprise, hpfall⟩ := hpk
            rcases Nat.eq_or_lt_of_le hil with rfl | hlgt
            · exfalso
              have hr_eq : ia = r + 1 := by
                rw [hia_def]
                refine plateauEndAux_eq x (x.getD i 0) (r + 1) x.length (i + 1)
                  (by omega) hrlen ?_ ?_ (by omega)
                · intro k hk1 hk2
                  exact hpconst k (by omega) (by omega)
                · rintro ⟨h1, h2⟩
                  exact absurd h2 (ne_of_lt hpfall)
              rw [hr_eq] at hfall
              exact hfall hpfall
            · exact ⟨l, r, hlgt, ⟨hl0, hlr, hrlen, hpconst, hprise, hpfall⟩, hm2⟩
      · rw [if_neg hrise]
        rw [localMaximaAux_mem x fuel (i + 1) m (by omega) (by omega)]
        constructor
        · rintro ⟨l, r, hl, hpk, hm2⟩
          exact ⟨l, r, by omega, hpk, hm2⟩
        · rintro ⟨l, r, hil, hpk, hm2⟩
          rcases Nat.eq_or_lt_of_le hil with rfl | hlgt
          · exact absurd hpk.2.2.2.2.1 hrise
          · exact ⟨l, r, hlgt, hpk, hm2⟩
    · rw [if_neg hilen]
      simp only [List.not_mem_nil, false_iff]
      rintro ⟨l, r, hil, ⟨_, hlr, hrlen, _, _, _⟩, _⟩
      omega

/-- An index is a local maximum exactly when it is the midpoint of some
plateau peak. -/
lemma localMaxima_mem (x : List ℚ) (m : ℕ) :
    m ∈ localMaxima x ↔ ∃ l r, IsPlateauPeak x l r ∧ m = (l + r) / 2 := by
  rw [localMaxima, localMaximaAux_mem x x.length 1 m one_pos (by omega)]
  constructor
  · rintro ⟨l, r, _, hpk, hm⟩
    exact ⟨l, r, hpk, hm⟩
  · rintro ⟨l, r, hpk, hm⟩
    exact ⟨l, r, hpk.1, hpk, hm⟩

/-- Membership in find_peaks: a plateau-peak midpoint whose sample value meets
the height requirement. -/
lemma find_peaks_mem (x : List ℚ) (height : ℚ) (m : ℕ) :
    m ∈ find_peaks x height ↔
      (∃ l r, IsPlateauPeak x l r ∧ m = (l + r) / 2) ∧ height ≤ x.getD m 0 := by
  rw [find_peaks, List.mem_filter, localMaxima_mem]
  simp only [decide_eq_true_eq]

/-- The peak list is strictly increasing. -/
lemma find_peaks_sorted (x : List ℚ) (height : ℚ) :
    (find_peaks x height).Pairwise (· < ·) :=
  List.Pairwise.filter _ (localMaximaAux_pairwise x x.length 1)

/-- Every detected peak is an interior index meeting the height requirement. -/
lemma find_peaks_bound (x : List ℚ) (height : ℚ) (m : ℕ)
    (hm : m ∈ find_peaks x height) :
    1 ≤ m ∧ m + 2 ≤ x.length ∧ height ≤ x.getD m 0 := by
  rcases (find_peaks_mem x height m).mp hm with ⟨⟨l, r, hpk, rfl⟩, hh⟩
  obtain ⟨hl0, hlr, hrlen, _, _, _⟩ := hpk
  exact ⟨by omega, by omega, hh⟩

/-- Two plateau peaks sharing an index cannot have distinct left edges. -/
lemma plateau_left_mono {x : List ℚ} {l r l' r' j : ℕ}
    (h1 : IsPlateauPeak x l r) (h2 : IsPlateauPeak x l' r')
    (_hlj : l ≤ j) (hjr : j ≤ r) (hlj' : l' ≤ j) (_hjr' : j ≤ r') : ¬ l < l' := by
  intro hll
  obtain ⟨_, hlr, hrlen, hc1, _, _⟩ := h1
  obtain ⟨_, hlr', hrlen', _, hrise2, _⟩ := h2
  have e1 : x.getD (l' - 1) 0 = x.getD l 0 := hc1 (l' - 1) (by omega) (by omega)
  have e2 : x.getD l' 0 = x.getD l 0 := hc1 l' (by omega) (by omega)
  rw [e1, e2] at hrise2
  exact lt_irrefl _ hrise2

/-- Two plateau peaks with the same left edge cannot have distinct right
edges. -/
lemma plateau_right_mono {x : List ℚ} {l r r' : ℕ}
    (h1 : IsPlateauPeak x l r) (h2 : IsPlateauPeak x l r') : ¬ r < r' := by
  intro hrr
  obtain ⟨_, hlr, hrlen, _, _, hfall1⟩ := h1
  obtain ⟨_, hlr', hrlen', hc2, _, _⟩ := h2
  have e1 : x.getD (r + 1) 0 = x.getD l 0 := hc2 (r + 1) (by omega) (by omega)
  rw [e1] at hfall1
  exact lt_irrefl _ hfall1

/-- Two plateau peaks sharing an index are identical. -/
lemma plateau_eq_of_overlap {x : List ℚ} {l r l' r' j : ℕ}
    (h1 : IsPlateauPeak x l r) (h2 : IsPlateauPeak x l' r')
    (hlj : l ≤ j) (hjr : j ≤ r) (hlj' : l' ≤ j) (hjr' : j ≤ r') :
    l = l' ∧ r = r' := by
  have hne1 := plateau_left_mono h1 h2 hlj hjr hlj' hjr'
  have hne2 := plateau_left_mono h2 h1 hlj' hjr' hlj hjr
  have hl : l = l' := by omega
  subst hl
  have hne3 := plateau_right_mono h1 h2
  have hne4 := plateau_right_mono h2 h1
  exact ⟨rfl, by omega⟩

/-- C2: find_peaks with height 0.1 detects an index exactly when it is the
midpoint of a run of equal samples that strictly exceeds both nearest unequal
neighbours (a strict local maximum, with ties collapsed into one plateau) and
its value is at least 0.1; a single-sample strict local maximum meeting the
threshold is detected; a sample below the threshold is never detected; each
plateau contributes exactly one peak index. -/
theorem find_peaks_ok (x : List ℚ) (i : ℕ) :
    (i ∈ find_peaks x (1/10) ↔
      (∃ l r, IsPlateauPeak x l r ∧ i = (l + r) / 2) ∧ 1/10 ≤ x.getD i 0)
    ∧ (0 < i → i + 1 < x.length → x.getD (i - 1) 0 < x.getD i 0 →
        x.getD (i + 1) 0 < x.getD i 0 → 1/10 ≤ x.getD i 0 →
        i ∈ find_peaks x (1/10))
    ∧ (x.getD i 0 < 1/10 → i ∉ find_peaks x (1/10))
    ∧ (∀ l r, IsPlateauPeak x l r →
        (∀ m, m ∈ find_peaks x (1/10) → l ≤ m → m ≤ r → m = (l + r) / 2)
        ∧ (1/10 ≤ x.getD l 0 → (l + r) / 2 ∈ find_peaks x (1/10))) := by
  refine ⟨find_peaks_mem x (1/10) i, ?_, ?_, ?_⟩
  · intro hi hlen hrise hfall hh
    refine (find_peaks_mem x (1/10) i).mpr ⟨⟨i, i, ?_, by omega⟩, hh⟩
    refine ⟨hi, le_refl i, by omega, ?_, hrise, hfall⟩
    intro j hj1 hj2
    have hj : j = i := by omega
    rw [hj]
  · intro hlow hmem
    have := ((find_peaks_mem x (1/10) i).mp hmem).2
    exact absurd this (not_le.mpr hlow)
  · intro l r hpk
    constructor
    · intro m hm hlm hmr
      rcases (find_peaks_mem x (1/10) m).mp hm with ⟨⟨l', r', hpk', rfl⟩, _⟩
      have hmid1 : l' ≤ (l' + r') / 2 := by
        have := hpk'.2.1
        omega
      have hmid2 : (l' + r') / 2 ≤ r' := by
        have := hpk'.2.1
        omega
      rcases plateau_eq_of_overlap hpk hpk' hlm hmr hmid1 hmid2 with ⟨rfl, rfl⟩
      rfl
    · intro hh
      have hmid1 : l ≤ (l + r) / 2 := by
        have := hpk.2.1
        omega
      have hmid2 : (l + r) / 2 ≤ r := by
        have := hpk.2.1
        omega
      have hval : x.getD ((l + r) / 2) 0 = x.getD l 0 := hpk.2.2.2.1 _ hmid1 hmid2
      refine (find_peaks_mem x (1/10) _).mpr ⟨⟨l, r, hpk, rfl⟩, ?_⟩
      rw [hval]
      exact hh

/-- Witness for C2: on [0,1,0,-1,0] index 1 is a detected strict local
maximum and index 0 is below the threshold; on the flat-top signal
[0,1,1,0] the detected index 1 is a plateau midpoint. -/
theorem find_peaks_ok_witness :
    (1 ∈ find_peaks [0, 1, 0, -1, 0] (1/10))
    ∧ (0 ∉ find_peaks [0, 1, 0, -1, 0] (1/10))
    ∧ ((∃ l r, IsPlateauPeak [0, 1, 1, 0] l r ∧ 1 = (l + r) / 2)
        ∧ (1 : ℚ)/10 ≤ ([0, 1, 1, 0] : List ℚ).getD 1 0) :=
  ⟨(find_peaks_ok [0, 1, 0, -1, 0] 1).2.1 (by decide) (by decide) (by decide)
      (by decide) (by decide),
   (find_peaks_ok [0, 1, 0, -1, 0] 0).2.2.1 (by decide),
   (find_peaks_ok [0, 1, 1, 0] 1).1.mp (by decide)⟩

/-- Helper: getD at an in-range index agrees with getElem. -/
lemma getD_eq_getElem_of_lt {α : Type} (l : List α) (d : α) {k : ℕ}
    (h : k < l.length) : l.getD k d = l[k] := by
  rw [List.getD_eq_getElem?_getD, List.getElem?_eq_getElem h]
  rfl

/-- Helper: getD at an in-range index is a member of the list. -/
lemma getD_mem_of_lt {α : Type} (l : List α) (d : α) {k : ℕ}
    (h : k < l.length) : l.getD k d ∈ l := by
  rw [getD_eq_getElem_of_lt l d h]
  exact List.getElem_mem h

/-- The confirmation scan succeeds exactly when some index in [lo, hi) holds a
non-positive flow sample. -/
lemma zeroReturn_iff (flow : List ℚ) (lo hi : ℕ) :
    zeroReturn flow lo hi = true ↔ ∃ j, lo ≤ j ∧ j < hi ∧ flow.getD j 0 ≤ 0 := by
  rw [zeroReturn, List.any_eq_true]
  constructor
  · rintro ⟨j, hj, hd⟩
    rw [List.mem_range'_1] at hj
    rw [decide_eq_true_eq] at hd
    exact ⟨j, hj.1, by omega, hd⟩
  · rintro ⟨j, h1, h2, hd⟩
    exact ⟨j, List.mem_range'_1.mpr ⟨h1, by omega⟩, decide_eq_true_eq.mpr hd⟩

/-- The confirmed breaths form a subsequence of the peak list. -/
lemma breaths_from_sublist (flow : List ℚ) :
    ∀ ps : List ℕ, (breaths_from flow ps).Sublist ps
  | [] => List.Sublist.refl []
  | [p] => by
    simp only [breaths_from]
    split
    · exact List.Sublist.refl [p]
    · exact List.nil_sublist [p]
  | p :: q :: rest => by
    simp only [breaths_from]
    split
    · simp only [List.singleton_append]
      exact List.Sublist.cons₂ p (breaths_from_sublist flow (q :: rest))
    · simp only [List.nil_append]
      exact List.Sublist.cons p (breaths_from_sublist flow (q :: rest))

/-- The pair loop plus the final-peak check of get_breaths equal the
front-to-back recursion breaths_from. -/
lemma pairs_last_eq (flow : List ℚ) :
    ∀ ps : List ℕ,
      ((ps.zip ps.tail).filterMap fun pq =>
          if zeroReturn flow pq.1 pq.2 then some pq.1 else none)
        ++ (match ps.getLast? with
            | some p => if zeroReturn flow p flow.length then [p] else []
            | none => []) = breaths_from flow ps
  | [] => rfl
  | [p] => by simp [breaths_from]
  | p :: q :: rest => by
    rw [breaths_from, ← pairs_last_eq flow (q :: rest)]
    by_cases hc : zeroReturn flow p q
    · simp [hc, List.filterMap_cons]
    · simp [hc, List.filterMap_cons]

/-- get_breaths is breaths_from applied to the detected peaks. -/
lemma get_breaths_eq (flow : List ℚ) :
    get_breaths flow = breaths_from flow (find_peaks flow (1/10)) := by
  simp only [get_breaths]
  by_cases hempty : (find_peaks flow (1/10)).isEmpty
  · rw [if_pos hempty, List.isEmpty_iff.mp hempty]
    rfl
  · rw [if_neg hempty]
    exact pairs_last_eq flow _

/-- A non-final peak is confirmed exactly when the scan to the next peak finds
a non-positive sample. -/
lemma breaths_from_mem_pair (flow : List ℚ) :
    ∀ ps : List ℕ, ps.Pairwise (· < ·) →
      ∀ k, k + 1 < ps.length →
        (ps.getD k 0 ∈ breaths_from flow ps ↔
          zeroReturn flow (ps.getD k 0) (ps.getD (k + 1) 0) = true)
  | [], _, k, hk => absurd hk (by simp)
  | [p], _, k, hk => absurd hk (by simp)
  | p :: q :: rest, hs, 0, hk => by
    have hlt : ∀ y ∈ breaths_from flow (q :: rest), p < y := fun y hy =>
      (List.pairwise_cons.mp hs).1 y
        ((breaths_from_sublist flow (q :: rest)).subset hy)
    simp only [breaths_from, List.getD_cons_zero, List.getD_cons_succ]
    constructor
    · intro hmem
      rcases List.mem_append.mp hmem with h1 | h2
      · by_cases hc : zeroReturn flow p q
        · exact hc
        · rw [if_neg hc] at h1
          exact absurd h1 (List.not_mem_nil p)
      · exact absurd (hlt p h2) (lt_irrefl p)
    · intro hc
      exact List.mem_append.mpr (Or.inl (by rw [if_pos hc]; exact List.mem_singleton.mpr rfl))
  | p :: q :: rest, hs, k + 1, hk => by
    have htail := breaths_from_mem_pair flow (q :: rest)
      (List.pairwise_cons.mp hs).2 k (by simpa using hk)
    simp only [breaths_from, List.getD_cons_succ]
    have hklen : k < (q :: rest).length := by
      simp only [List.length_cons] at hk ⊢
      omega
    have hpx : p < (q :: rest).getD k 0 :=
      (List.pairwise_cons.mp hs).1 _ (getD_mem_of_lt _ 0 hklen)
    constructor
    · intro hmem
      rcases List.mem_append.mp hmem with h1 | h2
      · exfalso
        by_cases hc : zeroReturn flow p q
        · rw [if_pos hc] at h1
          rw [List.mem_singleton.mp h1] at hpx
          exact lt_irrefl p hpx
        · rw [if_neg hc] at h1
          exact List.not_mem_nil _ h1
      · exact htail.mp h2
    · intro h
      exact List.mem_append.mpr (Or.inr (htail.mpr h))

/-- The final peak is confirmed exactly when the scan to the end of the series
finds a non-positive sample. -/
lemma breaths_from_mem_last (flow : List ℚ) :
    ∀ ps : List ℕ, ps.Pairwise (· < ·) →
      ∀ p, ps.getLast? = some p →
        (p ∈ breaths_from flow ps ↔ zeroReturn flow p flow.length = true)
  | [], _, p, h => by simp at h
  | [q], _, p, h => by
    have hq : q = p := by simpa using h
    subst hq
    simp only [breaths_from]
    constructor
    · intro hmem
      by_cases hc : zeroReturn flow q flow.length
      · exact hc
      · rw [if_neg hc] at hmem
        exact absurd hmem (List.not_mem_nil q)
    · intro hc
      rw [if_pos hc]
      exact List.mem_singleton.mpr rfl
  | q :: q' :: rest, hs, p, h => by
    have h' : (q' :: rest).getLast? = some p := by simpa using h
    have htail := breaths_from_mem_last flow (q' :: rest)
      (List.pairwise_cons.mp hs).2 p h'
    have hp_mem : p ∈ q' :: rest := List.mem_of_getLast?_eq_some h'
    have hqp : q < p := (List.pairwise_cons.mp hs).1 p hp_mem
    simp only [breaths_from]
    constructor
    · intro hmem
      rcases List.mem_append.mp hmem with h1 | h2
      · exfalso
        by_cases hc : zeroReturn flow q q'
        · rw [if_pos hc] at h1
          rw [List.mem_singleton.mp h1] at hqp
          exact lt_irrefl q hqp
        · rw [if_neg hc] at h1
          exact List.not_mem_nil _ h1
      · exact htail.mp h2
    · intro hc
      exact List.mem_append.mpr (Or.inr (htail.mpr hc))

/-- Every confirmed breath index is an interior peak with flow at least
0.1. -/
lemma get_breaths_bound (flow : List ℚ) (i : ℕ) (hi : i ∈ get_breaths flow) :
    1 ≤ i ∧ i + 2 ≤ flow.length ∧ (1:ℚ)/10 ≤ flow.getD i 0 := by
  have hmem : i ∈ find_peaks flow (1/10) := by
    rw [get_breaths_eq] at hi
    exact (breaths_from_sublist flow _).subset hi
  exact find_peaks_bound flow _ i hmem

/-- C1: get_breaths returns exactly the detected peaks confirmed by a return
to baseline.  The result is a subsequence of the peak list, strictly
increasing, with valid indices; it is empty when no peaks are detected; a
non-final peak is kept exactly when some sample strictly between it and the
next peak is non-positive; the final peak is kept exactly when some sample
from it to the end of the series is non-positive. -/
theorem get_breaths_ok (flow : List ℚ) :
    (get_breaths flow).Sublist (find_peaks flow (1/10))
    ∧ (get_breaths flow).Pairwise (· < ·)
    ∧ (∀ i ∈ get_breaths flow, i < flow.length)
    ∧ (find_peaks flow (1/10) = [] → get_breaths flow = [])
    ∧ (∀ k, k + 1 < (find_peaks flow (1/10)).length →
        ((find_peaks flow (1/10)).getD k 0 ∈ get_breaths flow ↔
          ∃ j, (find_peaks flow (1/10)).getD k 0 < j ∧
            j < (find_peaks flow (1/10)).getD (k + 1) 0 ∧ flow.getD j 0 ≤ 0))
    ∧ (∀ p, (find_peaks flow (1/10)).getLast? = some p →
        (p ∈ get_breaths flow ↔
          ∃ j, p ≤ j ∧ j < flow.length ∧ flow.getD j 0 ≤ 0)) := by
  have hsub : (get_breaths flow).Sublist (find_peaks flow (1/10)) := by
    rw [get_breaths_eq]
    exact breaths_from_sublist flow _
  have hsorted := find_peaks_sorted flow (1/10)
  refine ⟨hsub, List.Pairwise.sublist hsub hsorted, ?_, ?_, ?_, ?_⟩
  · intro i hi
    have := get_breaths_bound flow i hi
    omega
  · intro hempty
    rw [get_breaths_eq, hempty]
    rfl
  · intro k hk
    have hkl : k < (find_peaks flow (1/10)).length := by omega
    have hp_mem : (find_peaks flow (1/10)).getD k 0 ∈ find_peaks flow (1/10) :=
      getD_mem_of_lt _ 0 hkl
    have hthr := (find_peaks_bound flow (1/10) _ hp_mem).2.2
    rw [get_breaths_eq, breaths_from_mem_pair flow _ hsorted k hk, zeroReturn_iff]
    constructor
    · rintro ⟨j, hj1, hj2, hj3⟩
      rcases Nat.eq_or_lt_of_le hj1 with rfl | hlt
      · exfalso
        linarith
      · exact ⟨j, hlt, hj2, hj3⟩
    · rintro ⟨j, hj1, hj2, hj3⟩
      exact ⟨j, le_of_lt hj1, hj2, hj3⟩
  · intro p hp
    rw [get_breaths_eq, breaths_from_mem_last flow _ hsorted p hp, zeroReturn_iff]

/-- Witness for C1 on a two-peak series: both the non-final and the final
peak confirmation conditions are exercised. -/
theorem get_breaths_ok_witness :
    get_breaths [0, 1, 0, -1, 0, 2, -1] = [1, 5]
    ∧ ((find_peaks [0, 1, 0, -1, 0, 2, -1] (1/10)).getD 0 0 ∈
          get_breaths [0, 1, 0, -1, 0, 2, -1] ↔
        ∃ j, (find_peaks [0, 1, 0, -1, 0, 2, -1] (1/10)).getD 0 0 < j ∧
          j < (find_peaks [0, 1, 0, -1, 0, 2, -1] (1/10)).getD 1 0 ∧
          ([0, 1, 0, -1, 0, 2, -1] : List ℚ).getD j 0 ≤ 0)
    ∧ (5 ∈ get_breaths [0, 1, 0, -1, 0, 2, -1] ↔
        ∃ j, 5 ≤ j ∧ j < ([0, 1, 0, -1, 0, 2, -1] : List ℚ).length ∧
          ([0, 1, 0, -1, 0, 2, -1] : List ℚ).getD j 0 ≤ 0) :=
  ⟨by decide,
   (get_breaths_ok [0, 1, 0, -1, 0, 2, -1]).2.2.2.2.1 0 (by decide),
   (get_breaths_ok [0, 1, 0, -1, 0, 2, -1]).2.2.2.2.2 5 (by decide)⟩

/-- C10: every index returned by get_breaths is between 1 and len(flow) - 2
inclusive (first and last samples are never breath peaks), its flow value is
at least 0.1 hence strictly positive, and therefore indexing any time list of
matching length with it stays in bounds. -/
theorem get_breaths_bounds (flow : List ℚ) (i : ℕ) (hi : i ∈ get_breaths flow) :
    1 ≤ i ∧ i + 2 ≤ flow.length ∧ (1:ℚ)/10 ≤ flow.getD i 0
    ∧ 0 < flow.getD i 0
    ∧ ∀ time : List ℚ, time.length = flow.length → i < time.length := by
  obtain ⟨h1, h2, h3⟩ := get_breaths_bound flow i hi
  refine ⟨h1, h2, h3, by linarith, ?_⟩
  intro time hlen
  omega

/-- Witness for C10 at the breath index 1 of the series [0,1,0,-1,0]. -/
theorem get_breaths_bounds_witness :
    1 ∈ get_breaths [0, 1, 0, -1, 0]
    ∧ 1 + 2 ≤ ([0, 1, 0, -1, 0] : List ℚ).length
    ∧ (1:ℚ)/10 ≤ ([0, 1, 0, -1, 0] : List ℚ).getD 1 0
    ∧ 0 < ([0, 1, 0, -1, 0] : List ℚ).getD 1 0 :=
  have hmem : 1 ∈ get_breaths [0, 1, 0, -1, 0] := by decide
  have h := get_breaths_bounds [0, 1, 0, -1, 0] 1 hmem
  ⟨hmem, h.2.1, h.2.2.1, h.2.2.2.1⟩

/-- Folding an accumulating addition over List.range is a Finset sum. -/
lemma foldl_add_eq_sum (g : ℕ → ℚ) :
    ∀ (n : ℕ) (a : ℚ),
      (List.range n).foldl (fun acc i => acc + g i) a = a + ∑ i ∈ Finset.range n, g i
  | 0, a => by simp
  | n + 1, a => by
    rw [List.range_succ, List.foldl_append, foldl_add_eq_sum g n a,
      Finset.sum_range_succ]
    simp [add_assoc]

/-- Folding a conditional counter over List.range counts the indices
satisfying the predicate. -/
lemma foldl_countP_eq_card (P : ℕ → Prop) [DecidablePred P] :
    ∀ (n : ℕ) (a : ℕ),
      (List.range n).foldl (fun c i => if P i then c + 1 else c) a =
        a + ((Finset.range n).filter P).card
  | 0, a => by simp
  | n + 1, a => by
    rw [List.range_succ, List.foldl_append, foldl_countP_eq_card P n a,
      Finset.range_succ, Finset.filter_insert]
    by_cases hP : P n
    · rw [if_pos hP, Finset.card_insert_of_not_mem (by simp)]
      simp [hP, add_assoc]
    · rw [if_neg hP]
      simp [hP]

/-- C7: count_apneas returns the number of consecutive breath-time pairs whose
gap strictly exceeds 10 seconds; a gap of exactly 10 is not counted, and a
list of zero or one breath times yields 0; the spec's concrete examples hold. -/
theorem count_apneas_ok :
    (∀ breath_times : List ℚ, count_apneas breath_times =
      ((Finset.range (breath_times.length - 1)).filter
        (fun i => 10 < breath_times.getD (i + 1) 0 - breath_times.getD i 0)).card)
    ∧ count_apneas [] = 0
    ∧ (∀ a : ℚ, count_apneas [a] = 0)
    ∧ count_apneas [0, 11, 0, 0] = 1
    ∧ count_apneas [0, 11, 211/10, 311/10] = 2
    ∧ count_apneas [0, 10, 20] = 0 := by
  refine ⟨fun breath_times => ?_, by decide, fun a => by simp [count_apneas],
    by decide, by decide, by decide⟩
  simpa [count_apneas] using foldl_countP_eq_card
    (fun i => 10 < breath_times.getD (i + 1) 0 - breath_times.getD i 0)
    (breath_times.length - 1) 0

/-- C6: calc_leakage returns exactly the finite-difference sum of
(flow[i+1] - flow[i]) * (time[i+1] - time[i]) over consecutive pairs, and a
negative value (as in the spec's example) is returned unmodified. -/
theorem calc_leakage_ok :
    (∀ time flow : List ℚ, time.length = flow.length →
      calc_leakage time flow = ∑ i ∈ Finset.range (time.length - 1),
        (flow.getD (i + 1) 0 - flow.getD i 0) * (time.getD (i + 1) 0 - time.getD i 0))
    ∧ calc_leakage [0, 1, 2, 3] [1/10, -2/10, 3/10, -4/10] = -(1/2)
    ∧ calc_leakage [0, 1, 2, 3] [1/10, -2/10, 3/10, -4/10] < 0 := by
  refine ⟨fun time flow _ => ?_, by decide, by decide⟩
  simpa [calc_leakage] using foldl_add_eq_sum
    (fun i => (flow.getD (i + 1) 0 - flow.getD i 0) *
      (time.getD (i + 1) 0 - time.getD i 0))
    (time.length - 1) 0

/-- Witness for C6 at the spec's negative-leakage example. -/
theorem calc_leakage_ok_witness :
    ([0, 1, 2, 3] : List ℚ).length = ([1/10, -2/10, 3/10, -4/10] : List ℚ).length
    ∧ calc_leakage [0, 1, 2, 3] [1/10, -2/10, 3/10, -4/10] =
      ∑ i ∈ Finset.range (([0, 1, 2, 3] : List ℚ).length - 1),
        (([1/10, -2/10, 3/10, -4/10] : List ℚ).getD (i + 1) 0 -
          ([1/10, -2/10, 3/10, -4/10] : List ℚ).getD i 0) *
        (([0, 1, 2, 3] : List ℚ).getD (i + 1) 0 - ([0, 1, 2, 3] : List ℚ).getD i 0) :=
  ⟨rfl, calc_leakage_ok.1 _ _ rfl⟩

/-- C8: convert_ADC_to_pressure is the element-wise affine map
adc mapped to 98.0665 * (25.4 / (14745 - 1638)) * (adc - 1638); it preserves
length and is order-preserving in the input value. -/
theorem convert_ADC_to_pressure_ok :
    (∀ vals : List ℚ, convert_ADC_to_pressure vals =
      vals.map fun adc =>
        (980665 / 10000 : ℚ) * ((254 / 10) / (14745 - 1638)) * (adc - 1638))
    ∧ (∀ vals : List ℚ, (convert_ADC_to_pressure vals).length = vals.length)
    ∧ (∀ a b : ℚ, a ≤ b → adc_to_Pa a ≤ adc_to_Pa b) := by
  have hfun : (adc_to_Pa : ℚ → ℚ) = fun adc =>
      (980665 / 10000 : ℚ) * ((254 / 10) / (14745 - 1638)) * (adc - 1638) := by
    funext a
    unfold adc_to_Pa
    ring
  refine ⟨fun vals => by rw [convert_ADC_to_pressure, hfun],
    fun vals => by simp [convert_ADC_to_pressure], fun a b hab => ?_⟩
  have hdiff : adc_to_Pa b - adc_to_Pa a =
      ((254 / 10) / (14745 - 1638)) * (b - a) * (980665 / 10000) := by
    unfold adc_to_Pa
    ring
  nlinarith [hdiff, sub_nonneg.mpr hab]

/-- Witness for C8 at a concrete ordered pair of ADC values. -/
theorem convert_ADC_to_pressure_ok_witness :
    (0 : ℚ) ≤ 1 ∧ adc_to_Pa (0 : ℚ) ≤ adc_to_Pa 1 :=
  ⟨by norm_num, convert_ADC_to_pressure_ok.2.2 0 1 (by norm_num)⟩

/-- Helper: indexing with a list of in-range indices in the Option monad
succeeds and returns the list of looked-up values. -/
lemma mapM_getElem_of_lt (l : List ℚ) :
    ∀ is : List ℕ, (∀ i ∈ is, i < l.length) →
      (is.mapM fun i => l[i]?) = some (is.map fun i => l.getD i 0)
  | [], _ => rfl
  | i :: is, h => by
    have hi : i < l.length := h i (List.mem_cons_self i is)
    have hrest := mapM_getElem_of_lt l is fun j hj => h j (List.mem_cons_of_mem i hj)
    rw [List.mapM_cons, hrest, List.getElem?_eq_getElem hi]
    simp [List.getElem?_eq_getElem hi]

/-- Helper: a successful Option-monad mapM preserves length. -/
lemma mapM_opt_length {α : Type} :
    ∀ (is : List ℕ) (f : ℕ → Option α) (ys : List α),
      is.mapM f = some ys → ys.length = is.length
  | [], _, ys, h => by
    simp only [List.mapM_nil, pure, Option.some.injEq] at h
    rw [← h]
    rfl
  | i :: is, f, ys, h => by
    rw [List.mapM_cons] at h
    cases hfi : f i with
    | none => rw [hfi] at h; simp at h
    | some x =>
      rw [hfi] at h
      cases hrest : is.mapM f with
      | none => rw [hrest] at h; simp at h
      | some xs =>
        rw [hrest] at h
        simp only [Option.bind_eq_bind, Option.some_bind, Option.pure_def,
          Option.some.injEq] at h
        rw [← h]
        simp [mapM_opt_length is f xs hrest]

/-- C4: on a non-empty time list of the same length as the flow list and with
non-zero duration, analyze_flow returns the record with duration
time[last] - time[first], the confirmed breath count, the breath rate
(breaths / duration) * 60, the breath times looked up at the breath indices,
their apnea count, and the leakage; the invariant breaths =
len(breath_times) holds for every successful analysis; and the spec's
end-to-end example evaluates as stated. -/
theorem analyze_flow_ok :
    (∀ time flow : List ℚ, time ≠ [] → time.length = flow.length →
      time.getD (time.length - 1) 0 - time.getD 0 0 ≠ 0 →
      analyze_flow time flow = some
        { duration := time.getD (time.length - 1) 0 - time.getD 0 0
          breaths := (get_breaths flow).length
          breath_rate_bpm := (((get_breaths flow).length : ℚ) /
            (time.getD (time.length - 1) 0 - time.getD 0 0)) * 60
          breath_times := (get_breaths flow).map fun i => time.getD i 0
          apnea_count := count_apneas ((get_breaths flow).map fun i => time.getD i 0)
          leakage := calc_leakage time flow })
    ∧ (∀ (time flow : List ℚ) (m : Metrics), analyze_flow time flow = some m →
        m.breaths = m.breath_times.length)
    ∧ analyze_flow [0, 1, 2, 3, 4] [0, 1, 0, -1, 0] = some ⟨4, 1, 15, [1], 0, 0⟩ := by
  refine ⟨?_, ?_, by decide⟩
  · intro time flow hne hlen hdur
    have h0 : 0 < time.length := List.length_pos.mpr hne
    have hlast : time.getLast? = some (time.getD (time.length - 1) 0) := by
      rw [List.getLast?_eq_getElem?, List.getElem?_eq_getElem (by omega),
        getD_eq_getElem_of_lt _ 0 (by omega)]
    have hhead : time.head? = some (time.getD 0 0) := by
      rw [List.head?_eq_getElem?, List.getElem?_eq_getElem h0,
        getD_eq_getElem_of_lt _ 0 h0]
    have hbound : ∀ i ∈ get_breaths flow, i < time.length := by
      intro i hi
      have := get_breaths_bound flow i hi
      omega
    have hmapM := mapM_getElem_of_lt time (get_breaths flow) hbound
    simp only [analyze_flow]
    rw [hlast, hhead]
    simp only [Option.some_bind]
    rw [hmapM]
    simp only [Option.some_bind]
    rw [if_neg hdur]
  · intro time flow m h
    simp only [analyze_flow] at h
    cases htl : time.getLast? with
    | none => rw [htl] at h; simp at h
    | some tlast =>
      rw [htl] at h
      simp only [Option.some_bind] at h
      cases hhd : time.head? with
      | none => rw [hhd] at h; simp at h
      | some tfirst =>
        rw [hhd] at h
        simp only [Option.some_bind] at h
        cases hmm : (get_breaths flow).mapM (fun i => time[i]?) with
        | none => rw [hmm] at h; simp at h
        | some bts =>
          rw [hmm] at h
          simp only [Option.some_bind] at h
          by_cases hd : tlast - tfirst = 0
          · rw [if_pos hd] at h
            exact absurd h (by simp)
          · rw [if_neg hd] at h
            obtain rfl : _ = m := Option.some.inj h
            exact (mapM_opt_length _ _ bts hmm).symm

/-- Witness for C4 at the spec's end-to-end example. -/
theorem analyze_flow_ok_witness :
    analyze_flow [0, 1, 2, 3, 4] [0, 1, 0, -1, 0] = some
      { duration := ([0, 1, 2, 3, 4] : List ℚ).getD (([0, 1, 2, 3, 4] : List ℚ).length - 1) 0 -
          ([0, 1, 2, 3, 4] : List ℚ).getD 0 0
        breaths := (get_breaths [0, 1, 0, -1, 0]).length
        breath_rate_bpm := (((get_breaths [0, 1, 0, -1, 0]).length : ℚ) /
          (([0, 1, 2, 3, 4] : List ℚ).getD (([0, 1, 2, 3, 4] : List ℚ).length - 1) 0 -
            ([0, 1, 2, 3, 4] : List ℚ).getD 0 0)) * 60
        breath_times := (get_breaths [0, 1, 0, -1, 0]).map
          fun i => ([0, 1, 2, 3, 4] : List ℚ).getD i 0
        apnea_count := count_apneas ((get_breaths [0, 1, 0, -1, 0]).map
          fun i => ([0, 1, 2, 3, 4] : List ℚ).getD i 0)
        leakage := calc_leakage [0, 1, 2, 3, 4] [0, 1, 0, -1, 0] } :=
  analyze_flow_ok.1 [0, 1, 2, 3, 4] [0, 1, 0, -1, 0] (by decide) rfl (by decide)

/-- C9: a non-empty time list whose last element equals its first (zero
duration) makes analyze_flow fault: it returns none, never a partial or
degraded record. -/
theorem analyze_flow_zero_duration (time flow : List ℚ) (hne : time ≠ [])
    (hdur : time.getD (time.length - 1) 0 = time.getD 0 0) :
    analyze_flow time flow = none := by
  have h0 : 0 < time.length := List.length_pos.mpr hne
  have hlast : time.getLast? = some (time.getD (time.length - 1) 0) := by
    rw [List.getLast?_eq_getElem?, List.getElem?_eq_getElem (by omega),
      getD_eq_getElem_of_lt _ 0 (by omega)]
  have hhead : time.head? = some (time.getD 0 0) := by
    rw [List.head?_eq_getElem?, List.getElem?_eq_getElem h0,
      getD_eq_getElem_of_lt _ 0 h0]
  simp only [analyze_flow]
  rw [hlast, hhead]
  simp only [Option.some_bind]
  cases hmm : (get_breaths flow).mapM (fun i => time[i]?) with
  | none => rfl
  | some bts =>
    simp only [Option.some_bind]
    rw [if_pos (sub_eq_zero_of_eq hdur)]

/-- Witness for C9 at a concrete two-sample zero-duration input. -/
theorem analyze_flow_zero_duration_witness :
    analyze_flow [3, 3] [0, 0] = none :=
  analyze_flow_zero_duration [3, 3] [0, 0] (by decide) (by decide)


/-- The inlet area is positive. -/
lemma A1_pos : 0 < A1 := by
  rw [A1, d1]
  positivity

/-- The area ratio is the exact rational (d1/d2)^2 = 25/16. -/
lemma ratio_eq : A1 / A2 = 25 / 16 := by
  rw [A1, A2, mul_div_mul_left _ _ (ne_of_gt Real.pi_pos), d1, d2]
  norm_num

/-- The square-root denominator in calc_flow is positive. -/
lemma denom_pos : 0 < ro * ((A1 / A2) ^ 2 - 1) := by
  rw [ratio_eq, ro]
  norm_num

/-- Equal pressures give zero flow. -/
lemma calc_flow_self (p : ℝ) : calc_flow p p = some 0 := by
  rw [calc_flow, sqrtChecked, sub_self, mul_zero, zero_div, if_neg (lt_irrefl 0)]
  rw [Real.sqrt_zero]
  simp

/-- C5: calc_flow faults (math domain error) exactly when p1 < p2; when
p2 <= p1 it returns 1000 * A1 * sqrt(2 * (p1 - p2) / (ro * ((A1/A2)^2 - 1))),
which is non-negative; equal pressures give flow 0. -/
theorem calc_flow_ok (p1 p2 : ℝ) :
    (calc_flow p1 p2 = none ↔ p1 < p2)
    ∧ (p2 ≤ p1 → calc_flow p1 p2 =
        some (1000 * A1 * Real.sqrt ((2 * (p1 - p2)) / (ro * ((A1 / A2) ^ 2 - 1)))))
    ∧ (∀ q, calc_flow p1 p2 = some q → 0 ≤ q)
    ∧ calc_flow p1 p1 = some 0 := by
  have hden := denom_pos
  have harg : (2 * (p1 - p2)) / (ro * ((A1 / A2) ^ 2 - 1)) < 0 ↔ p1 < p2 := by
    rw [div_neg_iff]
    constructor
    · rintro (⟨h1, h2⟩ | ⟨h1, h2⟩)
      · linarith
      · linarith
    · intro h
      right
      exact ⟨by linarith, hden⟩
  refine ⟨?_, ?_, ?_, calc_flow_self p1⟩
  · constructor
    · intro hnone
      by_cases hc : (2 * (p1 - p2)) / (ro * ((A1 / A2) ^ 2 - 1)) < 0
      · exact harg.mp hc
      · rw [calc_flow, sqrtChecked, if_neg hc] at hnone
        simp at hnone
    · intro hlt
      rw [calc_flow, sqrtChecked, if_pos (harg.mpr hlt)]
      rfl
  · intro hle
    rw [calc_flow, sqrtChecked, if_neg (fun hc => absurd (harg.mp hc) (not_lt.mpr hle))]
    rfl
  · intro q hq
    rw [calc_flow, sqrtChecked] at hq
    by_cases hc : (2 * (p1 - p2)) / (ro * ((A1 / A2) ^ 2 - 1)) < 0
    · rw [if_pos hc] at hq
      simp at hq
    · rw [if_neg hc] at hq
      simp only [Option.map_some'] at hq
      rw [← Option.some.inj hq]
      exact mul_nonneg (mul_nonneg (by norm_num) (le_of_lt A1_pos))
        (Real.sqrt_nonneg _)

/-- Witness for C5 at the equal-pressure input 10, 10. -/
theorem calc_flow_ok_witness :
    calc_flow 10 10 = some 0
    ∧ (0 : ℝ) ≤ 0
    ∧ calc_flow 10 10 =
        some (1000 * A1 * Real.sqrt ((2 * ((10:ℝ) - 10)) / (ro * ((A1 / A2) ^ 2 - 1)))) :=
  have h := calc_flow_ok 10 10
  ⟨h.2.2.2, h.2.2.1 0 h.2.2.2, h.2.1 (le_refl 10)⟩

/-- C3: whenever get_flow_vs_time succeeds, the time and flow lists have the
input's length and are index-aligned: each time entry is the row's timestamp,
and each flow entry is +FlowModel(inspiratory, reference) when the inspiratory
pressure is at least the expiratory pressure (ties included), and
-FlowModel(expiratory, reference) otherwise. -/
theorem get_flow_vs_time_ok :
    ∀ (rows : List SensorRow) (time flow : List ℝ),
      get_flow_vs_time rows = some (time, flow) →
      time.length = rows.length ∧ flow.length = rows.length ∧
      ∀ k, k < rows.length →
        time.getD k 0 = (rows.getD k ⟨0, 0, 0, 0⟩).t ∧
        (if adc_to_Pa (rows.getD k ⟨0, 0, 0, 0⟩).adc_exp ≤
            adc_to_Pa (rows.getD k ⟨0, 0, 0, 0⟩).adc_ins
         then calc_flow (adc_to_Pa (rows.getD k ⟨0, 0, 0, 0⟩).adc_ins)
                (adc_to_Pa (rows.getD k ⟨0, 0, 0, 0⟩).adc_ref) = some (flow.getD k 0)
         else calc_flow (adc_to_Pa (rows.getD k ⟨0, 0, 0, 0⟩).adc_exp)
                (adc_to_Pa (rows.getD k ⟨0, 0, 0, 0⟩).adc_ref) = some (-(flow.getD k 0)))
  | [], time, flow, h => by
    simp only [get_flow_vs_time, Option.some.injEq, Prod.mk.injEq] at h
    obtain ⟨rfl, rfl⟩ := h
    refine ⟨rfl, rfl, ?_⟩
    intro k hk
    simp at hk
  | row :: rest, time, flow, h => by
    simp only [get_flow_vs_time, convert_ADC_to_pressure, List.map_cons,
      List.map_nil] at h
    by_cases hcmp : adc_to_Pa row.adc_exp ≤ adc_to_Pa row.adc_ins
    · rw [if_pos hcmp] at h
      cases hf : calc_flow (adc_to_Pa row.adc_ins) (adc_to_Pa row.adc_ref) with
      | none => rw [hf] at h; simp at h
      | some f =>
        rw [hf] at h
        simp only [Option.some_bind] at h
        cases hrec : get_flow_vs_time rest with
        | none => rw [hrec] at h; simp at h
        | some tf =>
          obtain ⟨ts, fs⟩ := tf
          rw [hrec] at h
          simp only [Option.some_bind, Option.some.injEq, Prod.mk.injEq] at h
          obtain ⟨rfl, rfl⟩ := h
          obtain ⟨h1, h2, h3⟩ := get_flow_vs_time_ok rest ts fs hrec
          refine ⟨by simp [h1], by simp [h2], ?_⟩
          intro k hk
          cases k with
          | zero =>
            constructor
            · simp
            · simp only [List.getD_cons_zero]
              rw [if_pos hcmp]
              exact hf
          | succ k =>
            simp only [List.getD_cons_succ]
            exact h3 k (by simpa using hk)
    · rw [if_neg hcmp] at h
      cases hf : calc_flow (adc_to_Pa row.adc_exp) (adc_to_Pa row.adc_ref) with
      | none => rw [hf] at h; simp at h
      | some f =>
        rw [hf] at h
        simp only [Option.map_some', Option.some_bind] at h
        cases hrec : get_flow_vs_time rest with
        | none => rw [hrec] at h; simp at h
        | some tf =>
          obtain ⟨ts, fs⟩ := tf
          rw [hrec] at h
          simp only [Option.some_bind, Option.some.injEq, Prod.mk.injEq] at h
          obtain ⟨rfl, rfl⟩ := h
          obtain ⟨h1, h2, h3⟩ := get_flow_vs_time_ok rest ts fs hrec
          refine ⟨by simp [h1], by simp [h2], ?_⟩
          intro k hk
          cases k with
          | zero =>
            constructor
            · simp
            · simp only [List.getD_cons_zero]
              rw [if_neg hcmp, hf]
              congr 1
              ring
          | succ k =>
            simp only [List.getD_cons_succ]
            exact h3 k (by simpa using hk)

/-- Witness for C3 at a single all-reference row, whose pressures are all
zero, the tie resolving to the positive (inhalation) branch with zero flow. -/
theorem get_flow_vs_time_ok_witness :
    get_flow_vs_time [⟨0, 1638, 1638, 1638⟩] = some ([0], [0])
    ∧ ([0] : List ℝ).length = ([⟨0, 1638, 1638, 1638⟩] : List SensorRow).length :=
  have hz : adc_to_Pa (1638 : ℝ) = 0 := by norm_num [adc_to_Pa]
  have hrow : get_flow_vs_time [⟨0, 1638, 1638, 1638⟩] = some ([0], [0]) := by
    simp only [get_flow_vs_time, convert_ADC_to_pressure, List.map_cons,
      List.map_nil, hz]
    rw [if_pos (le_refl (0:ℝ)), calc_flow_self 0]
    rfl
  ⟨hrow, (get_flow_vs_time_ok [⟨0, 1638, 1638, 1638⟩] [0] [0] hrow).1⟩

end Cpap
